import Mathlib

/-!
Verification development for the hidden-content directive pipeline of the
memos fork: the Go encoder `ProcessHiddenContent`, the Go search filter
`ProcessContentSearchFilter` / `removeHiddenPlaceholders`, and the web
resolver `resolveNode` / `extractAttributes` (resolve.ts) together with the
remark-plugin attribute extractor.

Strings are modelled as `List Char`.  The regular expressions used by the
source are small and, as analysed below, deterministic on every input: each
one is translated into an explicit scanner whose backtracking behaviour
coincides with the leftmost-first semantics of Go's `regexp` and JavaScript's
`RegExp`.  Recursion that consumes a match at a time is written with an
explicit fuel argument (`length + 1` is always enough because every step
consumes at least one character); this keeps every definition structurally
recursive so that closed terms evaluate inside the kernel.
-/

namespace Memos

/-- Strings are lists of characters. -/
abbrev Str := List Char

/-- Characters matched by Go regexp `\s` (the class `[\t\n\f\r ]`). -/
def isGoSpace (c : Char) : Bool :=
  c == ' ' || c == '\t' || c == '\n' || c == '\x0c' || c == '\r'

/-- ASCII characters matched by JavaScript `\s` (we additionally include the
vertical tab; non-ASCII space characters do not occur in any input we study). -/
def isJsSpace (c : Char) : Bool :=
  c == ' ' || c == '\t' || c == '\n' || c == '\x0b' || c == '\x0c' || c == '\r'

/-- ASCII characters matched by `\w` in Go and JavaScript. -/
def isWordChar (c : Char) : Bool :=
  (decide ('a' ≤ c) && decide (c ≤ 'z')) || (decide ('A' ≤ c) && decide (c ≤ 'Z')) ||
    (decide ('0' ≤ c) && decide (c ≤ '9')) || c == '_'

/-- Consume the literal `p` at the front of `s`, returning the remainder. -/
def eatLit : Str → Str → Option Str
  | [], s => some s
  | _ :: _, [] => none
  | a :: ps, b :: bs => if a = b then eatLit ps bs else none

/-- Split `s` at the first occurrence of the character `t`: the part before it
(which does not contain `t`) and the part after it. -/
def breakAtChar (t : Char) : Str → Option (Str × Str)
  | [] => none
  | c :: cs =>
    if c = t then some ([], cs)
    else
      match breakAtChar t cs with
      | some (p, r) => some (c :: p, r)
      | none => none

/-- Split `s` at the first occurrence of the pattern `pat`: the part before it
and the part after it. -/
def breakAtSub (pat : Str) : Str → Option (Str × Str)
  | [] => match eatLit pat [] with
    | some r => some ([], r)
    | none => none
  | c :: cs =>
    match eatLit pat (c :: cs) with
    | some r => some ([], r)
    | none =>
      match breakAtSub pat cs with
      | some (p, r) => some (c :: p, r)
      | none => none

/-- One or more Go whitespace characters (`\s+`, greedy): the maximal run and
the remainder, or `none` when the first character is not whitespace. -/
def takeSpaces1 (s : Str) : Option (Str × Str) :=
  let w := s.takeWhile isGoSpace
  if w = [] then none else some (w, s.dropWhile isGoSpace)

/-- Try the position-matcher `f` at every suffix of `s`, left to right,
returning the skipped prefix together with the first result. -/
def scanTail (f : Str → Option α) : Str → Option (Str × α)
  | [] =>
    match f [] with
    | some a => some ([], a)
    | none => none
  | c :: cs =>
    match f (c :: cs) with
    | some a => some ([], a)
    | none =>
      match scanTail f cs with
      | some (pre, a) => some (c :: pre, a)
      | none => none

/-- Go `strings.Contains`: `n` occurs as a contiguous substring of the second
argument. -/
def containsSub (n : Str) : Str → Bool
  | [] => n.isPrefixOf []
  | c :: cs => n.isPrefixOf (c :: cs) || containsSub n cs

/-- Helper for string splitting: prepend a character to the first piece. -/
def consHead (c : Char) : List Str → List Str
  | [] => [[c]]
  | p :: ps => (c :: p) :: ps

/-- Fuelled worker for `splitOnSub`. -/
def splitOnSubF (sep : Str) : Nat → Str → List Str
  | _, [] => [[]]
  | 0, s => [s]
  | f + 1, c :: cs =>
    if sep = [] then consHead c (splitOnSubF sep f cs)
    else
      match eatLit sep (c :: cs) with
      | some r => [] :: splitOnSubF sep f r
      | none => consHead c (splitOnSubF sep f cs)

/-- `strings.Split` in Go / `String.prototype.split` in JavaScript, for a
non-empty separator string (the only way the source uses it): the list of
pieces between non-overlapping occurrences of `sep`, scanned left to right. -/
def splitOnSub (sep s : Str) : List Str :=
  splitOnSubF sep (s.length + 1) s

/- ### The Go encoder (`ProcessHiddenContent`, src/unnamed/part_000) -/

/-- The literal `:::hide` that both Go directive regexes start with. -/
def hideMarker : Str := (":::hide").data

/-- The literal `:::`. -/
def colon3 : Str := (":::").data

/-- The literal `\n:::` that closes a block directive. -/
def nlCloser : Str := '\n' :: colon3

/-- The attribute step shared by both Go regexes: the optional greedy group
`(?:\{([^}]*)\})?`.  If a brace follows, the capture runs to the first `}`;
should that fail, the alternative without the group also fails because the
following regex atom (`\n` or `\s`) cannot match `{`. -/
def goAttrStep (r0 : Str) : Option (Option Str × Str) :=
  match r0 with
  | '{' :: t =>
    match breakAtChar '}' t with
    | some (a, r) => some (some a, r)
    | none => none
  | _ => some (none, r0)

/-- The payload step of the Go inline regex: `(.*?):::` with `.` not matching
newline.  Lazy matching finds the first `:::` not preceded by a newline in the
payload region. -/
def findInlineCloser : Str → Option (Str × Str)
  | [] => none
  | c :: cs =>
    match eatLit colon3 (c :: cs) with
    | some r => some ([], r)
    | none =>
      if c = '\n' then none
      else
        match findInlineCloser cs with
        | some (p, r) => some (c :: p, r)
        | none => none

/-- Match of the Go inline regex `:::hide(?:\{([^}]*)\})?\s+(.*?):::` at the
start of `s`: attribute capture (if any), the whitespace run, the payload, and
the remainder of the string. -/
def inlineMatchAt (s : Str) : Option (Option Str × Str × Str × Str) :=
  match eatLit hideMarker s with
  | none => none
  | some r0 =>
    match goAttrStep r0 with
    | none => none
    | some (attrs, r1) =>
      match takeSpaces1 r1 with
      | none => none
      | some (ws, r2) =>
        match findInlineCloser r2 with
        | none => none
        | some (payload, r3) => some (attrs, ws, payload, r3)

/-- The text an optional attribute capture occupied in the source string. -/
def bracesText (attrs : Option Str) : Str :=
  match attrs with
  | some a => '{' :: (a ++ ['}'])
  | none => []

/-- The text consumed by an inline match with the given parts. -/
def inlineMatched (attrs : Option Str) (ws payload : Str) : Str :=
  hideMarker ++ bracesText attrs ++ ws ++ payload ++ colon3

/-- Match of the Go block regex `(?s):::hide(?:\{([^}]*)\})?\n(.*?)\n:::` at
the start of `s`: attribute capture (if any), the enclosed body, and the
remainder. -/
def blockMatchAt (s : Str) : Option (Option Str × Str × Str) :=
  match eatLit hideMarker s with
  | none => none
  | some r0 =>
    match goAttrStep r0 with
    | none => none
    | some (attrs, r1) =>
      match r1 with
      | '\n' :: r2 =>
        match breakAtSub nlCloser r2 with
        | some (body, r3) => some (attrs, body, r3)
        | none => none
      | _ => none

/-- The text consumed by a block match with the given parts. -/
def blockMatched (attrs : Option Str) (body : Str) : Str :=
  hideMarker ++ bracesText attrs ++ '\n' :: (body ++ nlCloser)

/-- The Go replacement callback body shared by both directives: convert a
`foo=bar;baz=qux` attribute capture to the `foo:bar,baz:qux` placeholder form,
keeping only pieces that `strings.Split` cuts into exactly two parts at `=`. -/
def goAttrToken (tag : Str) (attrsGroup : Str) : Str :=
  if attrsGroup = [] then '[' :: (tag ++ [']'])
  else
    let attrMap := (splitOnSub [';'] attrsGroup).filterMap fun attr =>
      match splitOnSub ['='] attr with
      | [k, v] => some (k ++ ':' :: v)
      | _ => none
    if attrMap = [] then '[' :: (tag ++ [']'])
    else '[' :: (tag ++ '{' :: (List.intercalate [','] attrMap ++ ['}', ']']))

/-- The Go inline replacement function: like the source callback it re-parses
the matched text with `FindStringSubmatch` and emits a placeholder built from
the attribute capture only (an unmatched capture group is the empty string). -/
def inlineRepl (m : Str) : Str :=
  match scanTail inlineMatchAt m with
  | some (_, (attrs, _, _, _)) => goAttrToken ("hide-inline").data (attrs.getD [])
  | none => goAttrToken ("hide-inline").data []

/-- The Go block replacement function, analogous to `inlineRepl`. -/
def blockRepl (m : Str) : Str :=
  match scanTail blockMatchAt m with
  | some (_, (attrs, _, _)) => goAttrToken ("hide-block").data (attrs.getD [])
  | none => goAttrToken ("hide-block").data []

/-- Fuelled worker for the inline `ReplaceAllStringFunc` pass. -/
def inlinePassF : Nat → Str → Str
  | 0, s => s
  | f + 1, s =>
    match scanTail inlineMatchAt s with
    | none => s
    | some (pre, (attrs, ws, payload, rest)) =>
      pre ++ inlineRepl (inlineMatched attrs ws payload) ++ inlinePassF f rest

/-- The inline pass of `ProcessHiddenContent`: replace every non-overlapping
leftmost match of the inline regex by its placeholder. -/
def inlinePass (s : Str) : Str := inlinePassF (s.length + 1) s

/-- Fuelled worker for the block `ReplaceAllStringFunc` pass. -/
def blockPassF : Nat → Str → Str
  | 0, s => s
  | f + 1, s =>
    match scanTail blockMatchAt s with
    | none => s
    | some (pre, (attrs, body, rest)) =>
      pre ++ blockRepl (blockMatched attrs body) ++ blockPassF f rest

/-- The block pass of `ProcessHiddenContent`. -/
def blockPass (s : Str) : Str := blockPassF (s.length + 1) s

/-- `ProcessHiddenContent` (Go): the block pass runs over the whole content
first, then the inline pass runs over its result. -/
def ProcessHiddenContent (content : Str) : Str :=
  inlinePass (blockPass content)

/- ### The Go search filter (`ProcessContentSearchFilter`, part_000) -/

/-- Match of `\[hide-inline(?:\{[^}]*\})?\]`-shaped placeholder regexes at the
start of `s` (`marker` is `[hide-inline` or `[hide-block`); returns the
remainder after the token. -/
def placeholderMatchAt (marker : Str) (s : Str) : Option Str :=
  match eatLit marker s with
  | none => none
  | some r0 =>
    match r0 with
    | '{' :: t =>
      match breakAtChar '}' t with
      | some (_, r) =>
        match r with
        | ']' :: r2 => some r2
        | _ => none
      | none => none
    | ']' :: r2 => some r2
    | _ => none

/-- Fuelled worker removing every placeholder with the given marker. -/
def stripPassF (marker : Str) : Nat → Str → Str
  | 0, s => s
  | f + 1, s =>
    match s with
    | [] => []
    | c :: cs =>
      match placeholderMatchAt marker (c :: cs) with
      | some rest => stripPassF marker f rest
      | none => c :: stripPassF marker f cs

/-- Remove every placeholder token with the given marker (`ReplaceAllString`
with the empty replacement). -/
def stripPass (marker : Str) (s : Str) : Str := stripPassF marker (s.length + 1) s

/-- `removeHiddenPlaceholders` (Go): first every `[hide-inline...]` token is
removed, then every `[hide-block...]` token. -/
def removeHiddenPlaceholders (content : Str) : Str :=
  stripPass ("[hide-block").data (stripPass ("[hide-inline").data content)

/-- Match of the Go keyword regex at the start of `s`: the literal
`content.contains("`, then a non-empty capture up to the next quote, then
`")`.  Returns the captured keyword and the remainder after the match. -/
def kwMatchAt (s : Str) : Option (Str × Str) :=
  match eatLit ("content.contains(\"").data s with
  | none => none
  | some r0 =>
    match breakAtChar '\"' r0 with
    | some (kw, r1) =>
      if kw = [] then none
      else
        match r1 with
        | ')' :: r2 => some (kw, r2)
        | _ => none
    | none => none

/-- Fuelled worker collecting every keyword match, left to right. -/
def extractKeywordsF : Nat → Str → List Str
  | 0, _ => []
  | f + 1, s =>
    match scanTail kwMatchAt s with
    | none => []
    | some (_, (kw, rest)) => kw :: extractKeywordsF f rest

/-- All keywords captured by `content\.contains\("([^"]+)"\)` in one filter
string (`FindAllStringSubmatch`). -/
def extractKeywords (s : Str) : List Str := extractKeywordsF (s.length + 1) s

/-- The flat keyword list collected from all filters, in order. -/
def goAllKeywords (filters : List Str) : List Str :=
  (filters.map extractKeywords).flatten

/-- `ProcessContentSearchFilter` (Go): collect every keyword from every
filter; with no keywords return `true`; otherwise require every keyword to be
contained in the content with all placeholder tokens removed. -/
def ProcessContentSearchFilter (content : Str) (filters : List Str) : Bool :=
  let allKeywords := goAllKeywords filters
  if allKeywords.isEmpty then true
  else
    let visibleContent := removeHiddenPlaceholders content
    allKeywords.all fun keyword => containsSub keyword visibleContent

/- ### The web resolver (`resolve.ts`): attribute extraction -/

/-- Attribute objects: JavaScript objects with string keys and values that may
be `undefined` (`none`).  Key order is first-insertion order; a later entry
with the same key overwrites the value in place. -/
abbrev Attr := List (Str × Option Str)

/-- JavaScript truthiness of a string-or-undefined value. -/
def jsTruthy (o : Option Str) : Bool :=
  match o with
  | some s => !s.isEmpty
  | none => false

/-- JavaScript `a || b` on string-or-undefined values. -/
def jsOr (a b : Option Str) : Option Str :=
  if jsTruthy a then a else b

/-- Property lookup on an attribute object; a missing key and a key stored
with an `undefined` value are both `undefined`. -/
def jsLookup (m : Attr) (k : Str) : Option Str :=
  match m.find? (fun e => e.1 == k) with
  | some e => e.2
  | none => none

/-- Insert one `Object.fromEntries` entry: overwrite in place or append. -/
def objInsert (m : Attr) (k : Str) (v : Option Str) : Attr :=
  if m.any (fun e => e.1 == k) then m.map (fun e => if e.1 == k then (e.1, v) else e)
  else m ++ [(k, v)]

/-- `Object.fromEntries` over arrays of strings: element 0 is the key and
element 1 (possibly absent, hence `undefined`) is the value. -/
def jsFromEntries (ps : List (List Str)) : Attr :=
  ps.foldl (fun m p => objInsert m (p.headD []) ((p.drop 1).head?)) []

/-- JavaScript `String.prototype.trim` (ASCII whitespace). -/
def jsTrim (s : Str) : Str :=
  ((s.dropWhile isJsSpace).reverse.dropWhile isJsSpace).reverse

/-- `replace(/^\{|\}$/g, "")`: remove one leading `{` and one trailing `}`. -/
def stripBraces (s : Str) : Str :=
  let s1 := match s with
    | '{' :: t => t
    | _ => s
  if s1.getLast? = some '}' then s1.dropLast else s1

/-- `extractAttributes` from resolve.ts: trim, strip braces, split on the
separator, split every piece on the key/value separator, trim the parts and
feed everything — however many parts a piece produced — to
`Object.fromEntries`.  `none` models the absent argument. -/
def extractAttributes (text : Option Str) (sep kvSep : Str) : Attr :=
  match text with
  | none => []
  | some raw =>
    if raw = [] then []
    else
      let t := stripBraces (jsTrim raw)
      jsFromEntries ((splitOnSub sep t).map fun pair => (splitOnSub kvSep pair).map jsTrim)

/-- `extractAttributes` from the remark plugin (part_007): same pipeline but
pieces that do not split into exactly two parts are dropped, and the string
left after brace-stripping is checked for emptiness. -/
def remarkExtractAttributes (attrString : Str) (sep kvSep : Str) : Attr :=
  if attrString = [] then []
  else
    let text := stripBraces (jsTrim attrString)
    if text = [] then []
    else
      jsFromEntries
        (((splitOnSub sep text).map fun pair => (splitOnSub kvSep pair).map jsTrim).filter
          fun p => p.length == 2)

/- ### The web resolver: regexes of resolve.ts -/

/-- The `\s?:::` closer step of `reg.inlineOringal`: the greedy optional
whitespace is taken when it is followed by `:::`, otherwise the bare `:::`
must match (the two cases are mutually exclusive). -/
def jsCloserAt (s : Str) : Option (Str × Str) :=
  match s with
  | [] => none
  | c :: cs =>
    if isJsSpace c then
      match eatLit colon3 cs with
      | some r => some (c :: colon3, r)
      | none => none
    else
      match eatLit colon3 (c :: cs) with
      | some r => some (colon3, r)
      | none => none

/-- The lazy `(?<content>.*?)\s?:::` step: find the first position where the
closer matches, collecting payload characters, none of which may be a line
terminator (`.` without the `s` flag). -/
def jsFindCloser : Str → Option (Str × Str × Str)
  | [] => none
  | c :: cs =>
    match jsCloserAt (c :: cs) with
    | some (cl, r) => some ([], cl, r)
    | none =>
      if c = '\n' || c = '\r' then none
      else
        match jsFindCloser cs with
        | some (p, cl, r) => some (c :: p, cl, r)
        | none => none

/-- Parsed match of `reg.inlineOringal`
(`:::(?<action>\w+)(?<attributes>\{[^}]*\})?\s(?<content>.*?)\s?:::`). -/
structure JsInline where
  action : Str
  attrsGroup : Option Str
  wsChar : Char
  content : Str
  closerText : Str
  deriving Repr, DecidableEq

/-- The attribute step of the resolve.ts regexes: optional `(?<attributes>\{[^}]*\})`,
captured with its braces. -/
def jsAttrStep (r1 : Str) : Option (Option Str × Str) :=
  match r1 with
  | '{' :: t =>
    match breakAtChar '}' t with
    | some (a, r) => some (some ('{' :: (a ++ ['}'])), r)
    | none => none
  | _ => some (none, r1)

/-- Match of `reg.inlineOringal` at the start of `s`. -/
def jsInlineMatchAt (s : Str) : Option (JsInline × Str) :=
  match eatLit colon3 s with
  | none => none
  | some r0 =>
    let act := r0.takeWhile isWordChar
    if act = [] then none
    else
      match jsAttrStep (r0.dropWhile isWordChar) with
      | none => none
      | some (attrs, r2) =>
        match r2 with
        | [] => none
        | w :: r3 =>
          if isJsSpace w then
            match jsFindCloser r3 with
            | some (p, cl, r4) => some (⟨act, attrs, w, p, cl⟩, r4)
            | none => none
          else none

/-- The text consumed by a `reg.inlineOringal` match. -/
def jsMatchedOfInline (m : JsInline) : Str :=
  colon3 ++ m.action ++ m.attrsGroup.getD [] ++ m.wsChar :: (m.content ++ m.closerText)

/-- Parsed match of `reg.raw`
(`\[(?<action>\w+)-(?<mode>(?:inline|block))(?<attributes>\{[^}]*\})?\]`). -/
structure JsRaw where
  action : Str
  mode : Str
  attrsGroup : Option Str
  deriving Repr, DecidableEq

/-- Match of `reg.raw` at the start of `s`. -/
def jsRawMatchAt (s : Str) : Option (JsRaw × Str) :=
  match s with
  | '[' :: r0 =>
    let act := r0.takeWhile isWordChar
    if act = [] then none
    else
      match r0.dropWhile isWordChar with
      | '-' :: r1 =>
        let modeStep : Option (Str × Str) :=
          match eatLit ("inline").data r1 with
          | some r => some (("inline").data, r)
          | none =>
            match eatLit ("block").data r1 with
            | some r => some (("block").data, r)
            | none => none
        match modeStep with
        | none => none
        | some (mode, r2) =>
          match jsAttrStep r2 with
          | none => none
          | some (attrs, r3) =>
            match r3 with
            | ']' :: r4 => some (⟨act, mode, attrs⟩, r4)
            | _ => none
      | _ => none
  | _ => none

/-- The text consumed by a `reg.raw` match. -/
def jsMatchedOfRaw (m : JsRaw) : Str :=
  '[' :: (m.action ++ '-' :: (m.mode ++ m.attrsGroup.getD [] ++ [']']))

/-- Fuelled worker for `String.prototype.split` with a capturing regex:
alternating non-match pieces and matched separators. -/
def jsInlineSplitPartsF : Nat → Str → List Str
  | 0, s => [s]
  | f + 1, s =>
    match scanTail jsInlineMatchAt s with
    | none => [s]
    | some (pre, (m, rest)) => pre :: jsMatchedOfInline m :: jsInlineSplitPartsF f rest

/-- `content.split(reg.inlineOringalSplit)`. -/
def jsInlineSplitParts (s : Str) : List Str := jsInlineSplitPartsF (s.length + 1) s

/-- Fuelled worker for `content.split(reg.rawSplit)`. -/
def jsRawSplitPartsF : Nat → Str → List Str
  | 0, s => [s]
  | f + 1, s =>
    match scanTail jsRawMatchAt s with
    | none => [s]
    | some (pre, (m, rest)) => pre :: jsMatchedOfRaw m :: jsRawSplitPartsF f rest

/-- `content.split(reg.rawSplit)`. -/
def jsRawSplitParts (s : Str) : List Str := jsRawSplitPartsF (s.length + 1) s

/- ### The web resolver: nodes and `resolveNode` -/

/-- The content nodes`resolveNode` inspects: text nodes, paragraphs, the two
custom hidden nodes it produces, and a stand-in for every other node type
(which the resolver never looks inside).  An absent `textNode.content` and the
empty string are both falsy in the source, so both are modelled as `[]`. -/
inductive RNode where
  | text (content : Str) : RNode
  | para (children : List RNode) : RNode
  | hiddenInline (attrs : Attr) (content : Str) (ph : Option Str) : RNode
  | hiddenBlock (attrs : Attr) (children : List RNode) (ph : Option Str) : RNode
  | misc (tag : Nat) : RNode
  deriving Repr

/-- The module-level `blockAction` object of resolve.ts.  Its `nodes` Set is
modelled as a list: the nodes fed to it are distinct parser-produced objects,
so Set insertion never deduplicates. -/
structure BlockState where
  flag : Bool
  action : Str
  attrs : Attr
  nodes : List RNode
  deriving Repr

/-- The initial (module-load) value of `blockAction`. -/
def initState : BlockState := ⟨false, [], [], []⟩

/-- `paragraphNode?.children?.[0]?.textNode?.content`, with every missing step
collapsing to the falsy `[]`. -/
def paraChildText (ch : List RNode) : Str :=
  match ch with
  | RNode.text c :: _ => c
  | _ => []

/-- Whole-string match of `reg.blockOringalBegin`
(`^:::(?<action>\w+)(?<attributes>\{[^}]*\})?$`): action word and attribute
capture. -/
def blockBeginMatch (s : Str) : Option (Str × Option Str) :=
  match eatLit colon3 s with
  | none => none
  | some r =>
    let act := r.takeWhile isWordChar
    if act = [] then none
    else
      match r.dropWhile isWordChar with
      | [] => some (act, none)
      | '{' :: t =>
        match breakAtChar '}' t with
        | some (a, r3) => if r3 = [] then some (act, some ('{' :: (a ++ ['}']))) else none
        | none => none
      | _ => none

/-- `placeholder || text` pulled out of an attribute object. -/
def phOf (attrs : Attr) : Option Str :=
  jsOr (jsLookup attrs ("placeholder").data) (jsLookup attrs ("text").data)

/-- The rest-object of `const { text, placeholder, ...restAttr } = attrs`. -/
def removeReserved (attrs : Attr) : Attr :=
  attrs.filter fun e => !(e.1 == ("text").data) && !(e.1 == ("placeholder").data)

/-- The body of the map over inline split parts: re-match the part; on a match
the part collapses to its content group, becoming a hidden-inline node when
the action is `hide` and a plain text node otherwise. -/
def resolveInlinePart (part : Str) : RNode :=
  match scanTail jsInlineMatchAt part with
  | some (_, (m, _)) =>
    let attrs := extractAttributes m.attrsGroup [';'] ['=']
    if m.action = ("hide").data then
      RNode.hiddenInline (removeReserved attrs) m.content (phOf attrs)
    else RNode.text m.content
  | none => RNode.text part

/-- The body of the map over raw split parts: a matched part collapses to the
empty string, becoming a hidden node when the action is `hide`. -/
def resolveRawPart (part : Str) : RNode :=
  match scanTail jsRawMatchAt part with
  | some (_, (m, _)) =>
    let attrs := extractAttributes m.attrsGroup [','] [':']
    if m.action = ("hide").data then
      if m.mode = ("inline").data then
        RNode.hiddenInline (removeReserved attrs) [] (phOf attrs)
      else RNode.hiddenBlock (removeReserved attrs) [] (phOf attrs)
    else RNode.text []
  | none => RNode.text part

/-- `resolveNode` from resolve.ts, with the module-level `blockAction` state
made explicit.  The returned list is the node's contribution to the output:
`[]` for the source's `null`, a singleton for a single node, and the spliced
array for the inline/raw split results. -/
def resolveNode (st : BlockState) (node : RNode) : BlockState × List RNode :=
  match node with
  | RNode.text content =>
    if content = [] then (st, [node])
    else if (scanTail jsInlineMatchAt content).isSome then
      (st, ((jsInlineSplitParts content).filter fun p => !p.isEmpty).map resolveInlinePart)
    else if (scanTail jsRawMatchAt content).isSome then
      (st, ((jsRawSplitParts content).filter fun p => !p.isEmpty).map resolveRawPart)
    else if st.flag then ({ st with nodes := st.nodes ++ [node] }, [])
    else (st, [node])
  | RNode.para ch =>
    let childText := paraChildText ch
    if childText = [] then (st, [node])
    else if st.flag = false ∧ (blockBeginMatch childText).isSome then
      if st.nodes.length = 0 then
        match blockBeginMatch childText with
        | some (act, ag) =>
          ({ flag := true, action := act, attrs := extractAttributes ag [';'] ['='],
             nodes := st.nodes }, [])
        | none => (st, [node])
      else (st, [node])
    else if st.flag = true ∧ childText = colon3 then
      let st' : BlockState := { flag := false, action := st.action, attrs := st.attrs, nodes := [] }
      if st.action = ("hide").data then
        (st', [RNode.hiddenBlock (removeReserved st.attrs) st.nodes (phOf st.attrs)])
      else (st', [node])
    else if st.flag then ({ st with nodes := st.nodes ++ [node] }, [])
    else (st, [node])
  | other =>
    if st.flag then ({ st with nodes := st.nodes ++ [other] }, [])
    else (st, [other])

/-- Resolve a document: visit its unit sequence left to right, threading the
scanner state and concatenating every unit's contribution. -/
def resolveDoc (st : BlockState) (doc : List RNode) : BlockState × List RNode :=
  match doc with
  | [] => (st, [])
  | n :: rest =>
    let p := resolveNode st n
    let q := resolveDoc p.1 rest
    (q.1, p.2 ++ q.2)

/-- Units that, while the scanner is collecting, reach the final
`if (blockAction.flag)` check of `resolveNode` and are therefore suppressed
and accumulated: every node except a falsy/matching text node, a paragraph
without leading text, and the closer paragraph (all of which return early). -/
def collectible : RNode → Bool
  | RNode.text c =>
    !c.isEmpty && !(scanTail jsInlineMatchAt c).isSome && !(scanTail jsRawMatchAt c).isSome
  | RNode.para ch =>
    !(paraChildText ch).isEmpty && !(paraChildText ch == colon3)
  | _ => true

example : resolveNode initState (RNode.text (":::hide{foo=foo} secret:::").data)
    = (initState,
       [RNode.hiddenInline [(("foo").data, some ("foo").data)] (("secret").data) none]) :=
  rfl
example : resolveNode initState (RNode.text ("a [hide-inline{text:x}] b").data)
    = (initState,
       [RNode.text ("a ").data,
        RNode.hiddenInline [] [] (some ("x").data),
        RNode.text (" b").data]) := rfl
example :
    (resolveDoc initState
      [RNode.para [RNode.text (":::hide{level=high}").data],
       RNode.text ("Secret").data,
       RNode.para [RNode.text (":::").data]]).2
    = [RNode.hiddenBlock [(("level").data, some ("high").data)]
        [RNode.text ("Secret").data] none] := rfl
example : extractAttributes (some ("{a}").data) [','] [':'] = [(("a").data, none)] := by decide
example : remarkExtractAttributes ("{a}").data [','] [':'] = [] := by decide

example : ProcessHiddenContent ("This is :::hide secret::: content").data
    = ("This is [hide-inline] content").data := by decide
example : ProcessHiddenContent ("This is :::hide{level=high;type=sensitive} secret::: content").data
    = ("This is [hide-inline{level:high,type:sensitive}] content").data := by decide
example : ProcessHiddenContent (":::hide\nSecret line 1\nSecret line 2\n:::").data
    = ("[hide-block]").data := by decide
example : ProcessHiddenContent ("Start :::hide inline::: middle\n:::hide{foo=bar}\nblock content\n:::\nend").data
    = ("Start [hide-inline] middle\n[hide-block{foo:bar}]\nend").data := by decide
example : ProcessHiddenContent ("This is just normal content").data
    = ("This is just normal content").data := by decide
example : removeHiddenPlaceholders ("Start [hide-inline] middle [hide-block{foo:bar}] end").data
    = ("Start  middle  end").data := by decide
example : ProcessContentSearchFilter ("This is [hide-inline] message").data
    [("content.contains(\"hide-inline\")").data] = false := by decide
example : ProcessContentSearchFilter ("Public info [hide-inline{level:high}] more public info").data
    [("content.contains(\"Public\")").data] = true := by decide
example : ProcessContentSearchFilter ("Hello world").data
    [("content.contains(\"Hello\") && content.contains(\"universe\")").data] = false := by decide
example : ProcessContentSearchFilter ("Any content").data [] = true := by decide

/- ### Decomposition lemmas for the scanners -/

theorem eatLit_eq : ∀ {p s r : Str}, eatLit p s = some r → s = p ++ r := by
  intro p
  induction p with
  | nil =>
    intro s r h
    simp only [eatLit, Option.some.injEq] at h
    simp [h]
  | cons a ps ih =>
    intro s r h
    cases s with
    | nil => simp [eatLit] at h
    | cons b bs =>
      simp only [eatLit] at h
      split at h
      · rename_i hab
        have hbs := ih h
        simp [hab, hbs]
      · simp at h

theorem breakAtChar_eq : ∀ {s p r : Str} {t : Char},
    breakAtChar t s = some (p, r) → s = p ++ t :: r := by
  intro s
  induction s with
  | nil => intro p r t h; simp [breakAtChar] at h
  | cons c cs ih =>
    intro p r t h
    simp only [breakAtChar] at h
    split at h
    · rename_i hct
      simp only [Option.some.injEq, Prod.mk.injEq] at h
      obtain ⟨h1, h2⟩ := h
      subst h1; subst h2; simp [hct]
    · cases hrec : breakAtChar t cs with
      | none => rw [hrec] at h; simp at h
      | some pr =>
        rw [hrec] at h
        obtain ⟨p0, r0⟩ := pr
        simp only [Option.some.injEq, Prod.mk.injEq] at h
        obtain ⟨h1, h2⟩ := h
        subst h1; subst h2
        have := ih hrec
        simp [this]

theorem breakAtSub_eq : ∀ {s p r pat : Str},
    breakAtSub pat s = some (p, r) → s = p ++ pat ++ r := by
  intro s
  induction s with
  | nil =>
    intro p r pat h
    simp only [breakAtSub] at h
    cases he : eatLit pat [] with
    | none => rw [he] at h; simp at h
    | some r0 =>
      rw [he] at h
      simp only [Option.some.injEq, Prod.mk.injEq] at h
      obtain ⟨h1, h2⟩ := h
      subst h1; subst h2
      have := eatLit_eq he
      simp [← this]
  | cons c cs ih =>
    intro p r pat h
    simp only [breakAtSub] at h
    cases he : eatLit pat (c :: cs) with
    | none =>
      rw [he] at h
      cases hrec : breakAtSub pat cs with
      | none => rw [hrec] at h; simp at h
      | some pr =>
        rw [hrec] at h
        obtain ⟨p0, r0⟩ := pr
        simp only [Option.some.injEq, Prod.mk.injEq] at h
        obtain ⟨h1, h2⟩ := h
        subst h1; subst h2
        have := ih hrec
        simp [this]
    | some r0 =>
      rw [he] at h
      simp only [Option.some.injEq, Prod.mk.injEq] at h
      obtain ⟨h1, h2⟩ := h
      subst h1; subst h2
      have := eatLit_eq he
      simp [← this]

theorem takeSpaces1_eq {s w r : Str} (h : takeSpaces1 s = some (w, r)) : s = w ++ r := by
  simp only [takeSpaces1] at h
  split at h
  · simp at h
  · simp only [Option.some.injEq, Prod.mk.injEq] at h
    obtain ⟨h1, h2⟩ := h
    subst h1; subst h2
    exact (List.takeWhile_append_dropWhile isGoSpace s).symm

theorem findInlineCloser_eq : ∀ {s p r : Str},
    findInlineCloser s = some (p, r) → s = p ++ colon3 ++ r := by
  intro s
  induction s with
  | nil => intro p r h; simp [findInlineCloser] at h
  | cons c cs ih =>
    intro p r h
    simp only [findInlineCloser] at h
    split at h
    · rename_i r0 he
      simp only [Option.some.injEq, Prod.mk.injEq] at h
      obtain ⟨h1, h2⟩ := h
      subst h1; subst h2
      have := eatLit_eq he
      simp [← this]
    · split at h
      · simp at h
      · split at h
        · rename_i p0 r0 hrec
          simp only [Option.some.injEq, Prod.mk.injEq] at h
          obtain ⟨h1, h2⟩ := h
          subst h1; subst h2
          have := ih hrec
          simp [this]
        · simp at h

theorem findInlineCloser_no_newline : ∀ {s p r : Str},
    findInlineCloser s = some (p, r) → p.contains '\n' = false := by
  intro s
  induction s with
  | nil => intro p r h; simp [findInlineCloser] at h
  | cons c cs ih =>
    intro p r h
    simp only [findInlineCloser] at h
    split at h
    · simp only [Option.some.injEq, Prod.mk.injEq] at h
      obtain ⟨h1, _⟩ := h
      subst h1
      simp [List.contains]
    · rename_i he
      split at h
      · simp at h
      · rename_i hcn
        split at h
        · rename_i p0 r0 hrec
          simp only [Option.some.injEq, Prod.mk.injEq] at h
          obtain ⟨h1, _⟩ := h
          subst h1
          have hp0 := ih hrec
          simp only [List.contains_cons, Bool.or_eq_false_iff]
          refine ⟨?_, hp0⟩
          rw [beq_eq_false_iff_ne]
          exact fun hh => hcn hh.symm
        · simp at h

theorem scanTail_eq {f : Str → Option α} : ∀ {s : Str} {pre : Str} {a : α},
    scanTail f s = some (pre, a) → ∃ suf, s = pre ++ suf ∧ f suf = some a := by
  intro s
  induction s with
  | nil =>
    intro pre a h
    simp only [scanTail] at h
    cases hf : f [] with
    | none => rw [hf] at h; simp at h
    | some a0 =>
      rw [hf] at h
      simp only [Option.some.injEq, Prod.mk.injEq] at h
      obtain ⟨h1, h2⟩ := h
      subst h1; subst h2
      exact ⟨[], by simp, hf⟩
  | cons c cs ih =>
    intro pre a h
    simp only [scanTail] at h
    cases hf : f (c :: cs) with
    | some a0 =>
      rw [hf] at h
      simp only [Option.some.injEq, Prod.mk.injEq] at h
      obtain ⟨h1, h2⟩ := h
      subst h1; subst h2
      exact ⟨c :: cs, by simp, hf⟩
    | none =>
      rw [hf] at h
      cases hrec : scanTail f cs with
      | none => rw [hrec] at h; simp at h
      | some pa =>
        rw [hrec] at h
        obtain ⟨p0, a0⟩ := pa
        simp only [Option.some.injEq, Prod.mk.injEq] at h
        obtain ⟨h1, h2⟩ := h
        subst h1; subst h2
        obtain ⟨suf, hs, hfs⟩ := ih hrec
        exact ⟨suf, by simp [hs], hfs⟩

theorem goAttrStep_eq {r0 r1 : Str} {attrs : Option Str} (h : goAttrStep r0 = some (attrs, r1)) :
    r0 = bracesText attrs ++ r1 := by
  unfold goAttrStep at h
  split at h
  · rename_i t
    split at h
    · rename_i a r hb
      simp only [Option.some.injEq, Prod.mk.injEq] at h
      obtain ⟨h1, h2⟩ := h
      subst h1; subst h2
      have := breakAtChar_eq hb
      simp [bracesText, this]
    · simp at h
  · simp only [Option.some.injEq, Prod.mk.injEq] at h
    obtain ⟨h1, h2⟩ := h
    subst h1; subst h2
    simp [bracesText]

theorem inlineMatchAt_eq {s : Str} {attrs : Option Str} {ws payload rest : Str}
    (h : inlineMatchAt s = some (attrs, ws, payload, rest)) :
    s = inlineMatched attrs ws payload ++ rest := by
  unfold inlineMatchAt at h
  split at h
  · simp at h
  · rename_i r0 h0
    split at h
    · simp at h
    · rename_i ar attrs0 r1 h1
      split at h
      · simp at h
      · rename_i wr ws0 r2 h2
        split at h
        · simp at h
        · rename_i pr payload0 r3 h3
          simp only [Option.some.injEq, Prod.mk.injEq] at h
          obtain ⟨ha, hw, hp, hr⟩ := h
          subst ha; subst hw; subst hp; subst hr
          have e0 := eatLit_eq h0
          have e1 := goAttrStep_eq h1
          have e2 := takeSpaces1_eq h2
          have e3 := findInlineCloser_eq h3
          subst e0
          rw [e1, e2, e3]
          simp [inlineMatched, List.append_assoc]

theorem blockMatchAt_eq {s : Str} {attrs : Option Str} {body rest : Str}
    (h : blockMatchAt s = some (attrs, body, rest)) :
    s = blockMatched attrs body ++ rest := by
  unfold blockMatchAt at h
  split at h
  · simp at h
  · rename_i r0 h0
    split at h
    · simp at h
    · rename_i ar attrs0 r1 h1
      split at h
      · rename_i r2 hr1
        split at h
        · rename_i pr body0 r3 h3
          simp only [Option.some.injEq, Prod.mk.injEq] at h
          obtain ⟨ha, hb, hr⟩ := h
          subst ha; subst hb; subst hr
          have e0 := eatLit_eq h0
          have e1 := goAttrStep_eq h1
          have e3 := breakAtSub_eq h3
          subst e0
          rw [e1, e3]
          simp [blockMatched, List.append_assoc]
        · simp at h
      · simp at h

/- ### Substring lemmas -/

theorem isPrefixOf_append_self : ∀ (n r : Str), n.isPrefixOf (n ++ r) = true := by
  intro n r
  induction n with
  | nil => simp [List.isPrefixOf]
  | cons a as ih => simp [List.isPrefixOf, ih]

theorem containsSub_of_split : ∀ (a n b : Str), containsSub n (a ++ (n ++ b)) = true := by
  intro a n b
  induction a with
  | nil =>
    simp only [List.nil_append]
    cases h : n ++ b with
    | nil =>
      have hn : n = [] := by
        cases n with
        | nil => rfl
        | cons x xs => simp at h
      subst hn
      simp [containsSub, List.isPrefixOf]
    | cons c cs =>
      have hp : List.isPrefixOf n (c :: cs) = true := by
        rw [← h]; exact isPrefixOf_append_self n b
      simp [containsSub, hp]
  | cons c cs ih =>
    simp only [List.cons_append, containsSub, Bool.or_eq_true]
    exact Or.inr ih

theorem containsSub_true_of {s n : Str} (pre post : Str) (hs : s = pre ++ (n ++ post)) :
    containsSub n s = true := by
  rw [hs]; exact containsSub_of_split pre n post

/- ### Pass identity lemmas -/

theorem scanTail_inline_none {s : Str} (h : containsSub hideMarker s = false) :
    scanTail inlineMatchAt s = none := by
  cases hs : scanTail inlineMatchAt s with
  | none => rfl
  | some pa =>
    exfalso
    obtain ⟨pre, attrs, ws, payload, rest⟩ := pa
    obtain ⟨suf, hsuf, hf⟩ := scanTail_eq hs
    have hdec := inlineMatchAt_eq hf
    have : containsSub hideMarker s = true := by
      refine containsSub_true_of pre
        (bracesText attrs ++ ws ++ payload ++ colon3 ++ rest) ?_
      rw [hsuf, hdec]
      simp [inlineMatched, List.append_assoc]
    rw [this] at h
    exact Bool.true_eq_false.mp h

theorem scanTail_block_none {s : Str} (h : containsSub hideMarker s = false) :
    scanTail blockMatchAt s = none := by
  cases hs : scanTail blockMatchAt s with
  | none => rfl
  | some pa =>
    exfalso
    obtain ⟨pre, attrs, body, rest⟩ := pa
    obtain ⟨suf, hsuf, hf⟩ := scanTail_eq hs
    have hdec := blockMatchAt_eq hf
    have : containsSub hideMarker s = true := by
      refine containsSub_true_of pre
        (bracesText attrs ++ '\n' :: (body ++ nlCloser) ++ rest) ?_
      rw [hsuf, hdec]
      simp [blockMatched, List.append_assoc]
    rw [this] at h
    exact Bool.true_eq_false.mp h

theorem scanTail_block_none_closer {s : Str} (h : containsSub nlCloser s = false) :
    scanTail blockMatchAt s = none := by
  cases hs : scanTail blockMatchAt s with
  | none => rfl
  | some pa =>
    exfalso
    obtain ⟨pre, attrs, body, rest⟩ := pa
    obtain ⟨suf, hsuf, hf⟩ := scanTail_eq hs
    have hdec := blockMatchAt_eq hf
    have : containsSub nlCloser s = true := by
      refine containsSub_true_of
        (pre ++ (hideMarker ++ (bracesText attrs ++ '\n' :: body))) rest ?_
      rw [hsuf, hdec]
      simp [blockMatched, List.append_assoc, nlCloser]
    rw [this] at h
    exact Bool.true_eq_false.mp h

theorem inlinePass_eq_self {s : Str} (h : containsSub hideMarker s = false) :
    inlinePass s = s := by
  have hn := scanTail_inline_none h
  simp [inlinePass, inlinePassF, hn]

theorem blockPass_eq_self {s : Str} (h : containsSub hideMarker s = false) :
    blockPass s = s := by
  have hn := scanTail_block_none h
  simp [blockPass, blockPassF, hn]

theorem blockPass_eq_self_of_no_closer {s : Str} (h : containsSub nlCloser s = false) :
    blockPass s = s := by
  have hn := scanTail_block_none_closer h
  simp [blockPass, blockPassF, hn]

theorem processHiddenContent_eq_self {s : Str} (h : containsSub hideMarker s = false) :
    ProcessHiddenContent s = s := by
  unfold ProcessHiddenContent
  rw [blockPass_eq_self h, inlinePass_eq_self h]

/- ### Resolver state-machine lemmas -/

theorem resolveNode_collect {st : BlockState} {u : RNode} (hf : st.flag = true)
    (hc : collectible u = true) :
    resolveNode st u = ({ st with nodes := st.nodes ++ [u] }, []) := by
  cases u with
  | text c =>
    simp only [collectible, Bool.and_eq_true, Bool.not_eq_true'] at hc
    obtain ⟨⟨h1, h2⟩, h3⟩ := hc
    have hc1 : ¬(c = []) := by
      intro hcc; rw [hcc] at h1; simp at h1
    simp [resolveNode, hc1, h2, h3, hf]
  | para ch =>
    simp only [collectible, Bool.and_eq_true, Bool.not_eq_true'] at hc
    obtain ⟨h1, h2⟩ := hc
    have hc1 : ¬(paraChildText ch = []) := by
      intro hcc; rw [hcc] at h1; simp at h1
    have hc2 : ¬(paraChildText ch = colon3) := by
      intro hcc
      rw [hcc] at h2
      simp at h2
    simp [resolveNode, hc1, hc2, hf]
  | hiddenInline a c p => simp [resolveNode, hf]
  | hiddenBlock a c p => simp [resolveNode, hf]
  | misc t => simp [resolveNode, hf]

theorem resolveDoc_collecting : ∀ (units : List RNode) (st : BlockState),
    st.flag = true → units.all collectible = true →
    resolveDoc st units = ({ st with nodes := st.nodes ++ units }, []) := by
  intro units
  induction units with
  | nil => intro st hf _; simp [resolveDoc]
  | cons u us ih =>
    intro st hf hall
    simp only [List.all_cons, Bool.and_eq_true] at hall
    obtain ⟨hu, hus⟩ := hall
    have h1 := resolveNode_collect hf hu
    have h2 := ih { st with nodes := st.nodes ++ [u] } (by simp [hf]) hus
    simp [resolveDoc, h1, h2]

theorem resolveDoc_append : ∀ (as bs : List RNode) (st : BlockState),
    resolveDoc st (as ++ bs)
      = ((resolveDoc (resolveDoc st as).1 bs).1,
         (resolveDoc st as).2 ++ (resolveDoc (resolveDoc st as).1 bs).2) := by
  intro as
  induction as with
  | nil => intro bs st; simp [resolveDoc]
  | cons a as ih =>
    intro bs st
    simp [resolveDoc, ih, List.append_assoc]

theorem blockBeginMatch_ne_nil {t : Str} {act : Str} {ag : Option Str}
    (h : blockBeginMatch t = some (act, ag)) : t ≠ [] := by
  intro ht
  subst ht
  simp [blockBeginMatch, eatLit, colon3] at h

theorem resolveNode_opener {t : Str} {act : Str} {ag : Option Str}
    (h : blockBeginMatch t = some (act, ag)) :
    resolveNode initState (RNode.para [RNode.text t])
      = ({ flag := true, action := act, attrs := extractAttributes ag [';'] ['='],
           nodes := [] }, []) := by
  have ht := blockBeginMatch_ne_nil h
  simp [resolveNode, paraChildText, ht, initState, h]

theorem resolveNode_closer_hide {st : BlockState} (hf : st.flag = true)
    (ha : st.action = ("hide").data) :
    resolveNode st (RNode.para [RNode.text colon3])
      = ({ flag := false, action := st.action, attrs := st.attrs, nodes := [] },
         [RNode.hiddenBlock (removeReserved st.attrs) st.nodes (phOf st.attrs)]) := by
  have h1 : ¬(paraChildText [RNode.text colon3] = []) := by
    simp [paraChildText, colon3]
  simp [resolveNode, paraChildText, hf, ha, colon3]

/- ### Claim theorems -/

/-- C1: `ProcessContentSearchFilter c ps` returns `true` if and only if every
keyword extracted from a `content.contains("...")` sub-clause of any filter in
`ps` is a literal substring of `c` after the placeholder tokens have been
removed; in particular it returns `true` when no keywords are extracted, and a
keyword occurring in `c` only inside a placeholder token does not cause a
match (concrete instance from the source's own test data). -/
theorem C1_search_filter_spec :
    (∀ (c : Str) (ps : List Str),
      ProcessContentSearchFilter c ps = true ↔
        ∀ k ∈ goAllKeywords ps, containsSub k (removeHiddenPlaceholders c) = true) ∧
    ProcessContentSearchFilter (("Any content").data) [] = true ∧
    ProcessContentSearchFilter (("This is [hide-inline] message").data)
      [("content.contains(\"hide-inline\")").data] = false := by
  refine ⟨?_, by decide, by decide⟩
  intro c ps
  simp only [ProcessContentSearchFilter]
  by_cases h : goAllKeywords ps = []
  · simp [h]
  · have hne : (goAllKeywords ps).isEmpty = false := by
      cases hg : goAllKeywords ps with
      | nil => exact absurd hg h
      | cons a l => simp
    simp [hne, List.all_eq_true]

/-- C2 counterexample: for the input `:::hide hide:::` the payload captured
between the opening marker and the closer is exactly `hide`, yet `hide`
occurs as a literal substring of the emitted placeholder token
`[hide-inline]`: the payload does appear in the encoder's output token, so
the claim as universally stated is false. -/
theorem C2_counterexample :
    inlineMatchAt ((":::hide hide:::").data)
      = some (none, ([' '] : Str), ("hide").data, ([] : Str)) ∧
    ProcessHiddenContent ((":::hide hide:::").data) = ("[hide-inline]").data ∧
    containsSub (("hide").data) (("[hide-inline]").data) = true :=
  ⟨by decide, by decide, by decide⟩

/-- C2 amended: the two concrete conversion scenarios hold exactly, and the
payload is dropped in the sense that the emitted inline token is a function of
the attribute capture alone — two matches with the same attribute capture
produce the same replacement token, whatever their payloads (the payload text
may still coincide with a substring of the fixed token text). -/
theorem C2_amended :
    ProcessHiddenContent (("This is :::hide{level=high;type=sensitive} secret::: content").data)
      = ("This is [hide-inline{level:high,type:sensitive}] content").data ∧
    ProcessHiddenContent ((":::hide\nSecret line 1\nSecret line 2\n:::").data)
      = ("[hide-block]").data ∧
    (∀ m1 m2 : Str,
      (scanTail inlineMatchAt m1).map (fun x => x.2.1)
        = (scanTail inlineMatchAt m2).map (fun x => x.2.1) →
      inlineRepl m1 = inlineRepl m2) := by
  refine ⟨by decide, by decide, ?_⟩
  intro m1 m2 hmap
  cases h1 : scanTail inlineMatchAt m1 with
  | none =>
    cases h2 : scanTail inlineMatchAt m2 with
    | none => simp [inlineRepl, h1, h2]
    | some x2 => rw [h1, h2] at hmap; simp at hmap
  | some x1 =>
    cases h2 : scanTail inlineMatchAt m2 with
    | none => rw [h1, h2] at hmap; simp at hmap
    | some x2 =>
      rw [h1, h2] at hmap
      obtain ⟨p1, a1, w1, pl1, r1⟩ := x1
      obtain ⟨p2, a2, w2, pl2, r2⟩ := x2
      simp at hmap
      simp only [inlineRepl, h1, h2]
      rw [hmap]

/-- C2 witness: the payload-independence part of the amended claim applied to
two concrete matches with the same (absent) attribute capture. -/
theorem C2_amended_witness :
    inlineRepl ((":::hide a:::").data) = inlineRepl ((":::hide bb:::").data) :=
  C2_amended.2.2 ((":::hide a:::").data) ((":::hide bb:::").data) (by decide)

/-- C3 counterexample: for the unterminated opener `:::hide` the encoder does
not leave the text as ordinary unencoded content — its inline pass rewrites
`:::hide\nfoo :::` (no line consists of `:::`) to `[hide-inline]` — and the
resolver discards content: after the opener paragraph, the unit `hello` is
suppressed and the document's output is empty rather than the original
units. -/
theorem C3_counterexample :
    ProcessHiddenContent ((":::hide\nfoo :::").data) = ("[hide-inline]").data ∧
    (resolveDoc initState
      [RNode.para [RNode.text ((":::hide").data)],
       RNode.text (("hello").data)]).2 = [] :=
  ⟨by decide, rfl⟩

/-- C3 amended: the block pass of the encoder does fail open — on any input
without a `\n:::` closer it is the identity — but the subsequent inline pass
may still rewrite text spanning an unterminated opener, and the resolver does
not fail open: while its flag is set, every collectible unit is suppressed, so
a document whose opener is never closed contributes no output at all for those
units. -/
theorem C3_amended :
    (∀ s : Str, containsSub nlCloser s = false → blockPass s = s) ∧
    ProcessHiddenContent ((":::hide\nfoo ::: tail").data) = ("[hide-inline] tail").data ∧
    (∀ (st : BlockState) (units : List RNode),
      st.flag = true → units.all collectible = true →
      (resolveDoc st units).2 = []) := by
  refine ⟨fun s h => blockPass_eq_self_of_no_closer h, by decide, ?_⟩
  intro st units hf hall
  rw [resolveDoc_collecting units st hf hall]

/-- C3 witness: the amended claim applied at concrete inputs — an unterminated
opener is untouched by the block pass, and a collecting scanner suppresses a
concrete unit list. -/
theorem C3_amended_witness :
    blockPass ((":::hide{a} x").data) = (":::hide{a} x").data ∧
    (resolveDoc ⟨true, ("hide").data, [], []⟩ [RNode.text (("x").data)]).2 = [] :=
  ⟨C3_amended.1 ((":::hide{a} x").data) (by decide),
   C3_amended.2.2 ⟨true, ("hide").data, [], []⟩ [RNode.text (("x").data)] rfl (by decide)⟩

/-- C4 counterexample: the resolver does not pass a non-`hide` inline
directive through verbatim — `:::other{a=b} payload:::` is replaced by a text
node containing only `payload` — and its block scanner does enter the
collecting state on a non-`hide` opener `:::other`. -/
theorem C4_counterexample :
    resolveNode initState (RNode.text ((":::other{a=b} payload:::").data))
      = (initState, [RNode.text (("payload").data)]) ∧
    ("payload").data ≠ (":::other{a=b} payload:::").data ∧
    (resolveNode initState (RNode.para [RNode.text ((":::other").data)])).1.flag = true :=
  ⟨rfl, by decide, rfl⟩

/-- C4 amended: the Go encoder is inert on non-`hide` directives (its regexes
require the literal `:::hide`, so any input without that substring is returned
verbatim), but the resolver strips the wrapper of a non-`hide` inline
directive, keeping only its payload, and its block scanner collects after any
opener, discarding the collected units (returning only the closer paragraph)
when the action is not `hide`. -/
theorem C4_amended :
    (∀ s : Str, containsSub hideMarker s = false → ProcessHiddenContent s = s) ∧
    resolveNode initState (RNode.text ((":::other{a=b} payload:::").data))
      = (initState, [RNode.text (("payload").data)]) ∧
    (resolveDoc initState
      [RNode.para [RNode.text ((":::other").data)],
       RNode.text (("x").data),
       RNode.para [RNode.text colon3]]).2
      = [RNode.para [RNode.text colon3]] :=
  ⟨fun _ h => processHiddenContent_eq_self h, rfl, rfl⟩

/-- C4 witness: the encoder-inertness part of the amended claim applied to a
concrete input with a non-`hide` directive. -/
theorem C4_amended_witness :
    ProcessHiddenContent ((":::spoiler{a=b} text::: tail").data)
      = (":::spoiler{a=b} text::: tail").data :=
  C4_amended.1 ((":::spoiler{a=b} text::: tail").data) (by decide)

/-- C5 counterexample: the encoder is not idempotent.  For the input
`:::hide{a=::hide x:::y} p:::` the first encoding emits the token
`[hide-inline{a:::hide x:::y}]`, whose attribute text re-creates an inline
directive, and the second encoding rewrites it again. -/
theorem C5_counterexample :
    ProcessHiddenContent ((":::hide{a=::hide x:::y} p:::").data)
      = ("[hide-inline{a:::hide x:::y}]").data ∧
    ProcessHiddenContent (ProcessHiddenContent ((":::hide{a=::hide x:::y} p:::").data))
      = ("[hide-inline{a[hide-inline]y}]").data ∧
    ProcessHiddenContent (ProcessHiddenContent ((":::hide{a=::hide x:::y} p:::").data))
      ≠ ProcessHiddenContent ((":::hide{a=::hide x:::y} p:::").data) :=
  ⟨by decide, by decide, by decide⟩

/-- C5 amended: the encoder is idempotent on every input whose encoded form
contains no residual `:::hide` occurrence (in particular on all inputs whose
attribute values do not smuggle directive syntax), and canonical placeholder
tokens free of `:::hide` pass through unchanged. -/
theorem C5_amended :
    (∀ x : Str, containsSub hideMarker (ProcessHiddenContent x) = false →
      ProcessHiddenContent (ProcessHiddenContent x) = ProcessHiddenContent x) ∧
    ProcessHiddenContent (("[hide-inline{level:high}] and [hide-block]").data)
      = ("[hide-inline{level:high}] and [hide-block]").data :=
  ⟨fun _ h => processHiddenContent_eq_self h, by decide⟩

/-- C5 witness: idempotence of the amended claim at a concrete input. -/
theorem C5_amended_witness :
    ProcessHiddenContent (ProcessHiddenContent (("This is :::hide secret::: content").data))
      = ProcessHiddenContent (("This is :::hide secret::: content").data) :=
  C5_amended.1 (("This is :::hide secret::: content").data) (by decide)

/-- C6 counterexample: resolution is not per-document.  A first document
consisting of a lone `:::hide` opener leaves the module-level scanner flag
set, and a second document consisting of the text unit `hello`, resolved with
that leaked state, produces no output, whereas resolved from the fresh state
it returns its unit unchanged. -/
theorem C6_counterexample :
    (resolveDoc (resolveDoc initState [RNode.para [RNode.text ((":::hide").data)]]).1
        [RNode.text (("hello").data)]).2 = [] ∧
    (resolveDoc initState [RNode.text (("hello").data)]).2
      = [RNode.text (("hello").data)] ∧
    ([] : List RNode) ≠ [RNode.text (("hello").data)] :=
  ⟨rfl, rfl, by simp⟩

/-- C6 amended: resolution depends on the incoming scanner state and is
per-document exactly when each document starts from the initial state: if the
first document returns the scanner to the initial state the second document's
output is unaffected, while any state with the flag set suppresses every
collectible unit of the next document. -/
theorem C6_amended :
    (∀ d1 d2 : List RNode, (resolveDoc initState d1).1 = initState →
      (resolveDoc (resolveDoc initState d1).1 d2).2 = (resolveDoc initState d2).2) ∧
    (∀ (st : BlockState) (u : RNode), st.flag = true → collectible u = true →
      (resolveNode st u).2 = []) := by
  constructor
  · intro d1 d2 h
    rw [h]
  · intro st u hf hc
    rw [resolveNode_collect hf hc]

/-- C6 witness: the amended claim applied at concrete documents — a benign
first document does not disturb the second, and a collecting state suppresses
a concrete unit. -/
theorem C6_amended_witness :
    (resolveDoc (resolveDoc initState [RNode.text (("a").data)]).1 [RNode.misc 0]).2
      = (resolveDoc initState [RNode.misc 0]).2 ∧
    (resolveNode ⟨true, ("hide").data, [], []⟩ (RNode.text (("x").data))).2 = [] :=
  ⟨C6_amended.1 [RNode.text (("a").data)] [RNode.misc 0] rfl,
   C6_amended.2 ⟨true, ("hide").data, [], []⟩ (RNode.text (("x").data)) rfl (by decide)⟩

/-- C7 counterexample: a piece that does not yield exactly two non-empty
trimmed parts is not dropped by the resolver's `extractAttributes`: the blob
`{a}` yields the entry `a ↦ undefined` instead of the empty mapping. -/
theorem C7_counterexample :
    extractAttributes (some (("{a}").data)) [','] [':'] = [((("a").data), none)] ∧
    ([((("a").data : Str), (none : Option Str))] : Attr) ≠ [] :=
  ⟨by decide, by decide⟩

/-- C7 amended: the empty or absent blob yields the empty mapping in both
extractor variants and extraction is total, but malformed pieces are kept by
the resolver's `extractAttributes` — a piece without the key/value separator
becomes `key ↦ undefined` and a piece with several separators keeps only its
first two parts — while the remark-plugin variant drops pieces that do not
split into exactly two parts yet does not require those parts to be
non-empty. -/
theorem C7_amended :
    (∀ sep kvSep : Str, extractAttributes none sep kvSep = []) ∧
    (∀ sep kvSep : Str, extractAttributes (some []) sep kvSep = []) ∧
    (∀ sep kvSep : Str, remarkExtractAttributes [] sep kvSep = []) ∧
    extractAttributes (some (("{a}").data)) [','] [':'] = [((("a").data), none)] ∧
    extractAttributes (some (("{a:b:c}").data)) [','] [':']
      = [((("a").data), some (("b").data))] ∧
    remarkExtractAttributes (("{a}").data) [','] [':'] = [] ∧
    remarkExtractAttributes (("{a:b:c}").data) [','] [':'] = [] ∧
    remarkExtractAttributes (("{:}").data) [','] [':'] = [([], some [])] :=
  ⟨fun _ _ => rfl, fun _ _ => rfl, fun _ _ => rfl,
   by decide, by decide, by decide, by decide, by decide⟩

/-- C8 counterexample: a block spanning N = 1 unit between opener and closer
need not produce a block node with one child.  When the enclosed unit is a
text node carrying an inline directive, it escapes collection: the resolver
emits it alongside a block node with zero children, and the three-unit
document shrinks to two units instead of one. -/
theorem C8_counterexample :
    (resolveDoc initState
      [RNode.para [RNode.text ((":::hide").data)],
       RNode.text ((":::hide x:::").data),
       RNode.para [RNode.text colon3]]).2
      = [RNode.hiddenInline [] (("x").data) none,
         RNode.hiddenBlock [] [] none] ∧
    ((resolveDoc initState
      [RNode.para [RNode.text ((":::hide").data)],
       RNode.text ((":::hide x:::").data),
       RNode.para [RNode.text colon3]]).2).length ≠ 1 ∧
    ([] : List RNode).length ≠ 1 :=
  ⟨rfl, by decide, by decide⟩

/-- C8 amended: for a matched `hide` opener followed by N collectible units
(units that do not themselves resolve: non-empty directive-free text,
paragraphs with non-empty non-closer leading text, or any other node kind) and
a closer, the resolver emits exactly one hidden block node whose children are
exactly those N units, so the N + 2 input units collapse to one output
node. -/
theorem C8_amended (t : Str) (ag : Option Str) (body : List RNode)
    (hopen : blockBeginMatch t = some (("hide").data, ag))
    (hbody : body.all collectible = true) :
    (resolveDoc initState
        (RNode.para [RNode.text t] :: (body ++ [RNode.para [RNode.text colon3]]))).2
      = [RNode.hiddenBlock
          (removeReserved (extractAttributes ag [';'] ['=']))
          body
          (phOf (extractAttributes ag [';'] ['=']))] ∧
    (RNode.para [RNode.text t] :: (body ++ [RNode.para [RNode.text colon3]])).length
      = body.length + 2 := by
  constructor
  · have h1 := resolveNode_opener hopen
    have h2 := resolveDoc_collecting body
      ⟨true, ("hide").data, extractAttributes ag [';'] ['='], []⟩ rfl hbody
    have h3 := @resolveNode_closer_hide
      ⟨true, ("hide").data, extractAttributes ag [';'] ['='], [] ++ body⟩ rfl rfl
    simp only [resolveDoc, h1]
    rw [resolveDoc_append]
    rw [h2]
    simp only [resolveDoc, h3]
    simp
  · simp

/-- C8 witness: the amended claim applied to a concrete one-unit block. -/
theorem C8_amended_witness :
    (resolveDoc initState
        (RNode.para [RNode.text ((":::hide{level=high}").data)]
          :: ([RNode.text (("Secret").data)] ++ [RNode.para [RNode.text colon3]]))).2
      = [RNode.hiddenBlock
          (removeReserved (extractAttributes (some (("{level=high}").data)) [';'] ['=']))
          [RNode.text (("Secret").data)]
          (phOf (extractAttributes (some (("{level=high}").data)) [';'] ['=']))] :=
  (C8_amended ((":::hide{level=high}").data) (some (("{level=high}").data))
    [RNode.text (("Secret").data)] (by decide) (by decide)).1

/-- C9 counterexample: the inline pattern does not let the payload span
newlines.  For `:::hide a\nb:::` — the marker, whitespace, a payload with a
newline, and a closing `:::` — the encoder leaves the input unchanged instead
of replacing the match with a placeholder token. -/
theorem C9_counterexample :
    ProcessHiddenContent ((":::hide a\nb:::").data) = (":::hide a\nb:::").data ∧
    (":::hide a\nb:::").data ≠ ("[hide-inline]").data :=
  ⟨by decide, by decide⟩

/-- C9 amended: the payload group of every inline match is newline-free (the
`.` of the Go pattern does not match newline; only the `\s+` separator may
span lines), and multi-line hidden content is handled by the block form. -/
theorem C9_amended :
    (∀ (s : Str) (attrs : Option Str) (ws payload rest : Str),
      inlineMatchAt s = some (attrs, ws, payload, rest) →
      payload.contains '\n' = false) ∧
    ProcessHiddenContent ((":::hide\na\nb\n:::").data) = ("[hide-block]").data := by
  refine ⟨?_, by decide⟩
  intro s attrs ws payload rest h
  unfold inlineMatchAt at h
  split at h
  · simp at h
  · split at h
    · simp at h
    · split at h
      · simp at h
      · split at h
        · simp at h
        · rename_i pr payload0 r3 h3
          simp only [Option.some.injEq, Prod.mk.injEq] at h
          obtain ⟨_, _, hp, _⟩ := h
          subst hp
          exact findInlineCloser_no_newline h3

/-- C9 witness: the amended claim applied to a concrete inline match. -/
theorem C9_amended_witness : (("ab").data).contains '\n' = false :=
  C9_amended.1 ((":::hide ab:::").data) none ([' '] : Str) (("ab").data) ([] : Str)
    (by decide)

/-- C10: `ProcessHiddenContent` applies the block pass over the whole input
before the inline pass, and on the region `:::hide{a=b}\nfoo:::\n:::`, which
both grammars match, the block interpretation wins: the output is the single
token `[hide-block{a:b}]`, whereas the inline pass alone would have produced
`[hide-inline{a:b}]` plus residual text. -/
theorem C10_block_pass_first :
    (∀ s : Str, ProcessHiddenContent s = inlinePass (blockPass s)) ∧
    ProcessHiddenContent ((":::hide{a=b}\nfoo:::\n:::").data)
      = ("[hide-block{a:b}]").data ∧
    inlinePass ((":::hide{a=b}\nfoo:::\n:::").data)
      = ("[hide-inline{a:b}]\n:::").data :=
  ⟨fun _ => rfl, by decide, by decide⟩

end Memos
